import Mathlib

/-!
Verification of the Monte Carlo NPV simulation engine of `src/Montecarlo.py`.

The engine `monte_carlo_simulation` is embedded over the rationals.  The only
source of randomness in the program is `np.random.normal(base_sales,
sales_deviation * base_sales, years)`; a normal draw with mean `μ` and
standard deviation `σ` is `μ + σ * Z` for a standard-normal variate `Z`, so
the random source is abstracted as a function `z : Nat → ℚ` (one
standard-normal variate per year, and `z : Nat → Nat → ℚ` per trial and year
at the top level).  The summarizer of lines 48-50 (`np.mean`,
`np.percentile`) is embedded with numpy's default linear-interpolation
percentile; `np.percentile` raises on an empty input, which is modelled by
`Option` with `none` exactly on the empty list.
-/

/-- The nine arguments of `monte_carlo_simulation` (field names follow the
source). -/
structure SimParams where
  num_simulations : Nat
  years : Nat
  discount_rate : ℚ
  base_sales : ℚ
  sales_deviation : ℚ
  variable_cost_pct : ℚ
  fixed_costs : ℚ
  tax_rate : ℚ
  initial_investment : ℚ

/-- Line 9 of the source: `np.random.normal(base_sales, sales_deviation *
base_sales, years)`, the array of `years` sampled sales of one trial, where
`z t` is the standard-normal variate underlying the draw for year `t`. -/
def simulated_sales (p : SimParams) (z : Nat → ℚ) : List ℚ :=
  (List.range p.years).map (fun t => p.base_sales + p.sales_deviation * p.base_sales * z t)

/-- Lines 12-16 of the source: the body of the per-year loop, computing the
net cash flow of one sampled sales figure `s`. -/
def net_cash_flow_of_sale (p : SimParams) (s : ℚ) : ℚ :=
  let revenue := s
  let costs := p.variable_cost_pct * s + p.fixed_costs
  let gross_profit := revenue - costs
  let taxes := gross_profit * p.tax_rate
  gross_profit - taxes

/-- Lines 10-17 of the source: the list `net_cash_flows` built by the
per-year loop, in year order. -/
def net_cash_flows (p : SimParams) (z : Nat → ℚ) : List ℚ :=
  (simulated_sales p z).map (net_cash_flow_of_sale p)

/-- Line 18 of the source: `sum(net_cash_flows[t] / (1 + discount_rate) **
(t + 1) for t in range(years)) - initial_investment`, the NPV of one trial. -/
def trial_npv (p : SimParams) (z : Nat → ℚ) : ℚ :=
  ((List.range p.years).map
      (fun t => (net_cash_flows p z).getD t 0 / (1 + p.discount_rate) ^ (t + 1))).sum
    - p.initial_investment

/-- Lines 7-20 of the source: the whole engine.  Trial `i` consumes the
standard-normal variates `z i`; the NPVs are collected in trial order. -/
def monte_carlo_simulation (p : SimParams) (z : Nat → Nat → ℚ) : List ℚ :=
  (List.range p.num_simulations).map (fun i => trial_npv p (z i))

/-- Linear interpolation between order statistics at (rational) index `i` of
the list `s`: `s[⌊i⌋] + (i - ⌊i⌋) * (s[⌈i⌉] - s[⌊i⌋])`. -/
def interpAt (s : List ℚ) (i : ℚ) : ℚ :=
  s.getD ⌊i⌋₊ 0 + (i - (⌊i⌋₊ : ℚ)) * (s.getD ⌈i⌉₊ 0 - s.getD ⌊i⌋₊ 0)

/-- `np.percentile(xs, q)` with numpy's default linear-interpolation method:
sort, take index `q / 100 * (n - 1)`, interpolate between the bracketing
order statistics.  numpy raises on an empty input, modelled as `none`. -/
def np_percentile (xs : List ℚ) (q : ℚ) : Option ℚ :=
  if xs.isEmpty then none
  else some (interpAt (List.insertionSort (fun a b => a ≤ b) xs)
    (q / 100 * ((xs.length : ℚ) - 1)))

/-- `np.mean(xs)`: arithmetic mean. -/
def np_mean (xs : List ℚ) : ℚ := xs.sum / (xs.length : ℚ)

/-- Lines 48-50 of the source: the statistics summarizer, producing the mean
and the 5th and 95th percentiles.  On an empty result `np.percentile` raises
(an empty-input error), so the summarizer returns no values: `none`. -/
def summarize (xs : List ℚ) : Option (ℚ × ℚ × ℚ) :=
  match np_percentile xs 5, np_percentile xs 95 with
  | some p5, some p95 => some (np_mean xs, p5, p95)
  | _, _ => none

/-- The analytically computed deterministic NPV: every year contributes the
net cash flow of `base_sales`, discounted by `(1 + discount_rate) ^ (t + 1)`. -/
def deterministic_npv (p : SimParams) : ℚ :=
  (∑ t in Finset.range p.years,
      net_cash_flow_of_sale p p.base_sales / (1 + p.discount_rate) ^ (t + 1))
    - p.initial_investment

/-- `p` with `initial_investment` increased by `d`, all other fields equal. -/
def addInvestment (p : SimParams) (d : ℚ) : SimParams :=
  ⟨p.num_simulations, p.years, p.discount_rate, p.base_sales, p.sales_deviation,
    p.variable_cost_pct, p.fixed_costs, p.tax_rate, p.initial_investment + d⟩

/-- The parameters of the concrete scenario of the spec. -/
def scenarioParams : SimParams :=
  ⟨1, 1, 1 / 10, 1000, 0, 2 / 5, 200, 3 / 10, 2000⟩

section Helpers

lemma sum_map_range (n : Nat) (f : Nat → ℚ) :
    ((List.range n).map f).sum = ∑ t in Finset.range n, f t := by
  induction n with
  | zero => simp
  | succ m ih => rw [List.range_succ, Finset.sum_range_succ, List.map_append, List.sum_append, ih]; simp

lemma getD_map_range (n : Nat) (f : Nat → ℚ) {t : Nat} (ht : t < n) :
    ((List.range n).map f).getD t 0 = f t := by
  rw [List.getD_eq_getElem?_getD]
  simp [List.getElem?_range, ht]

lemma net_cash_flows_getD (p : SimParams) (z : Nat → ℚ) {t : Nat} (ht : t < p.years) :
    (net_cash_flows p z).getD t 0
      = net_cash_flow_of_sale p (p.base_sales + p.sales_deviation * p.base_sales * z t) := by
  rw [net_cash_flows, simulated_sales, List.map_map]
  exact getD_map_range p.years _ ht

lemma trial_npv_eq_sum (p : SimParams) (z : Nat → ℚ) :
    trial_npv p z
      = (∑ t in Finset.range p.years,
          net_cash_flow_of_sale p (p.base_sales + p.sales_deviation * p.base_sales * z t)
            / (1 + p.discount_rate) ^ (t + 1))
        - p.initial_investment := by
  rw [trial_npv, sum_map_range]
  refine congrArg (fun x => x - p.initial_investment) (Finset.sum_congr rfl fun t htm => ?_)
  rw [net_cash_flows_getD p z (Finset.mem_range.mp htm)]

lemma monte_carlo_length (p : SimParams) (z : Nat → Nat → ℚ) :
    (monte_carlo_simulation p z).length = p.num_simulations := by
  simp [monte_carlo_simulation]

lemma monte_carlo_getD (p : SimParams) (z : Nat → Nat → ℚ) {i : Nat}
    (hi : i < p.num_simulations) :
    (monte_carlo_simulation p z).getD i 0 = trial_npv p (z i) := by
  rw [monte_carlo_simulation]
  exact getD_map_range p.num_simulations _ hi

end Helpers

/-- C1: for `simulation_count ≥ 1` and `horizon_years ≥ 1`, the engine
returns exactly `num_simulations` NPV samples, and the `i`-th sample is the
NPV of the `i`-th generated trial (trial order is preserved). -/
theorem run_returns_ordered_samples (p : SimParams) (z : Nat → Nat → ℚ)
    (_hn : 1 ≤ p.num_simulations) (_hy : 1 ≤ p.years) :
    (monte_carlo_simulation p z).length = p.num_simulations ∧
      ∀ i, i < p.num_simulations →
        (monte_carlo_simulation p z).getD i 0 = trial_npv p (z i) := by
  exact ⟨monte_carlo_length p z, fun i hi => monte_carlo_getD p z hi⟩

theorem run_returns_ordered_samples_witness :
    (monte_carlo_simulation scenarioParams (fun _ _ => 0)).length
        = scenarioParams.num_simulations ∧
      ∀ i, i < scenarioParams.num_simulations →
        (monte_carlo_simulation scenarioParams (fun _ _ => 0)).getD i 0
          = trial_npv scenarioParams ((fun _ _ => (0 : ℚ)) i) :=
  run_returns_ordered_samples scenarioParams (fun _ _ => 0) (by decide) (by decide)

/-- C2: the net cash flow of a sampled sales figure `s` is
`(s - (vc * s + fc)) - (s - (vc * s + fc)) * tax`, with no clamping: when the
gross profit is negative and the tax rate positive, the taxes term is
negative (a tax benefit) and flows into the net cash flow unchanged. -/
theorem net_cash_flow_no_clamp (p : SimParams) (s : ℚ) :
    net_cash_flow_of_sale p s
        = (s - (p.variable_cost_pct * s + p.fixed_costs))
          - (s - (p.variable_cost_pct * s + p.fixed_costs)) * p.tax_rate ∧
      (s - (p.variable_cost_pct * s + p.fixed_costs) < 0 → 0 < p.tax_rate →
        (s - (p.variable_cost_pct * s + p.fixed_costs)) * p.tax_rate < 0) := by
  refine ⟨rfl, fun hg ht => mul_neg_of_neg_of_pos hg ht⟩

theorem net_cash_flow_no_clamp_witness :
    net_cash_flow_of_sale scenarioParams 100
        = (100 - (scenarioParams.variable_cost_pct * 100 + scenarioParams.fixed_costs))
          - (100 - (scenarioParams.variable_cost_pct * 100 + scenarioParams.fixed_costs))
            * scenarioParams.tax_rate ∧
      (100 - (scenarioParams.variable_cost_pct * 100 + scenarioParams.fixed_costs))
          * scenarioParams.tax_rate < 0 :=
  ⟨(net_cash_flow_no_clamp scenarioParams 100).1,
    (net_cash_flow_no_clamp scenarioParams 100).2 (by norm_num [scenarioParams])
      (by norm_num [scenarioParams])⟩

/-- C3: the NPV of a trial is the sum over `t = 0, …, years - 1` of the
year-`t` net cash flow discounted by `(1 + discount_rate) ^ (t + 1)`, minus
the initial investment — the year-0 flow is discounted one full period. -/
theorem trial_npv_discounts_from_one (p : SimParams) (z : Nat → ℚ) :
    trial_npv p z
      = (∑ t in Finset.range p.years,
          net_cash_flow_of_sale p (p.base_sales + p.sales_deviation * p.base_sales * z t)
            / (1 + p.discount_rate) ^ (t + 1))
        - p.initial_investment :=
  trial_npv_eq_sum p z

section MoreHelpers

lemma trial_npv_addInvestment (p : SimParams) (d : ℚ) (z : Nat → ℚ) :
    trial_npv (addInvestment p d) z = trial_npv p z - d := by
  rw [trial_npv_eq_sum, trial_npv_eq_sum]
  simp only [addInvestment, net_cash_flow_of_sale]
  ring

end MoreHelpers

/-- C4: on the spec's concrete scenario (one trial, one year, rate 0.10,
base sales 1000, zero deviation, variable costs 40 %, fixed costs 200, tax
30 %, investment 2000) the engine returns the single sample
`280 / 1.10 - 2000`, whatever the random variates are. -/
theorem scenario_npv (z : Nat → Nat → ℚ) :
    monte_carlo_simulation scenarioParams z = [280 / (11 / 10) - 2000] := by
  simp only [monte_carlo_simulation, trial_npv, net_cash_flows, simulated_sales,
    net_cash_flow_of_sale, scenarioParams]
  norm_num [List.range_succ, net_cash_flow_of_sale]

/-- C5: with `sales_deviation = 0`, every sampled sales value of every trial
equals `base_sales`, and every returned NPV sample equals the analytically
computed deterministic NPV. -/
theorem zero_deviation_deterministic (p : SimParams) (h : p.sales_deviation = 0)
    (z : Nat → Nat → ℚ) :
    (∀ i t, t < p.years → (simulated_sales p (z i)).getD t 0 = p.base_sales) ∧
      ∀ i, i < p.num_simulations →
        (monte_carlo_simulation p z).getD i 0 = deterministic_npv p := by
  constructor
  · intro i t ht
    rw [simulated_sales, getD_map_range p.years _ ht, h]
    ring
  · intro i hi
    rw [monte_carlo_getD p z hi, trial_npv_eq_sum, deterministic_npv]
    simp [h]

theorem zero_deviation_deterministic_witness :
    scenarioParams.sales_deviation = 0 ∧
      ((∀ (_i t : Nat), t < scenarioParams.years →
          (simulated_sales scenarioParams (fun _ => (0 : ℚ))).getD t 0
            = scenarioParams.base_sales) ∧
        ∀ i, i < scenarioParams.num_simulations →
          (monte_carlo_simulation scenarioParams (fun _ _ => 0)).getD i 0
            = deterministic_npv scenarioParams) :=
  ⟨rfl, zero_deviation_deterministic scenarioParams rfl (fun _ _ => 0)⟩

/-- C6: adding `d` to the initial investment while keeping every other
parameter and every random draw fixed translates the whole output sequence
down by exactly `d`, sample for sample. -/
theorem investment_translation (p : SimParams) (d : ℚ) (z : Nat → Nat → ℚ) :
    monte_carlo_simulation (addInvestment p d) z
      = (monte_carlo_simulation p z).map (fun x => x - d) := by
  unfold monte_carlo_simulation
  rw [List.map_map]
  have hn : (addInvestment p d).num_simulations = p.num_simulations := rfl
  rw [hn]
  exact List.map_congr_left fun i _ => trial_npv_addInvestment p d (z i)

/-- C10: the engine is deterministic given its random source: two runs with
the same parameters whose draw streams agree on every trial `i <
num_simulations` and year `t < years` produce identical output sequences. -/
theorem deterministic_given_draws (p : SimParams) (z1 z2 : Nat → Nat → ℚ)
    (h : ∀ i t, i < p.num_simulations → t < p.years → z1 i t = z2 i t) :
    monte_carlo_simulation p z1 = monte_carlo_simulation p z2 := by
  unfold monte_carlo_simulation
  refine List.map_congr_left fun i hi => ?_
  have hi2 : i < p.num_simulations := List.mem_range.mp hi
  rw [trial_npv_eq_sum, trial_npv_eq_sum]
  refine congrArg (fun x => x - p.initial_investment) (Finset.sum_congr rfl fun t htm => ?_)
  rw [h i t hi2 (Finset.mem_range.mp htm)]

theorem deterministic_given_draws_witness :
    (∀ i t, i < scenarioParams.num_simulations → t < scenarioParams.years →
        (fun _ _ => (0 : ℚ)) i t
          = (fun (i t : Nat) => if i < 1 then (if t < 1 then (0 : ℚ) else 1) else 1) i t) ∧
      monte_carlo_simulation scenarioParams (fun _ _ => 0)
        = monte_carlo_simulation scenarioParams
            (fun (i t : Nat) => if i < 1 then (if t < 1 then (0 : ℚ) else 1) else 1) := by
  have h : ∀ i t, i < scenarioParams.num_simulations → t < scenarioParams.years →
      (fun _ _ => (0 : ℚ)) i t
        = (fun (i t : Nat) => if i < 1 then (if t < 1 then (0 : ℚ) else 1) else 1) i t := by
    intro i t hi ht
    have hi1 : i < 1 := hi
    have ht1 : t < 1 := ht
    simp [hi1, ht1]
  exact ⟨h, deterministic_given_draws scenarioParams _ _ h⟩

/-- C8: applied to an empty result sequence the summarizer signals the
empty-input error (returns no values) instead of statistics. -/
theorem summarize_empty_signals : summarize ([] : List ℚ) = none := rfl

section PercentileHelpers

lemma sorted_getD_mono {s : List ℚ} (hs : List.Sorted (fun a b => a ≤ b) s) {i j : Nat}
    (hij : i ≤ j) (hj : j < s.length) : s.getD i 0 ≤ s.getD j 0 := by
  have hi : i < s.length := Nat.lt_of_le_of_lt hij hj
  rw [List.getD_eq_getElem?_getD, List.getD_eq_getElem?_getD,
    List.getElem?_eq_getElem hi, List.getElem?_eq_getElem hj]
  simp only [Option.getD_some]
  rcases Nat.lt_or_ge i j with hlt | hge
  · have h2 := hs.rel_get_of_lt (show (⟨i, hi⟩ : Fin s.length) < ⟨j, hj⟩ from hlt)
    simpa [List.get_eq_getElem] using h2
  · have hij2 : i = j := Nat.le_antisymm hij hge
    subst hij2
    exact le_refl _

lemma ceil_lt_length {s : List ℚ} (hne : s ≠ []) {a : ℚ}
    (hb : a ≤ (s.length : ℚ) - 1) : ⌈a⌉₊ < s.length := by
  have h1 : 0 < s.length := List.length_pos.mpr hne
  have h2 : a ≤ ((s.length - 1 : Nat) : ℚ) := by
    rw [Nat.cast_sub h1, Nat.cast_one]
    exact hb
  have h3 : ⌈a⌉₊ ≤ s.length - 1 := Nat.ceil_le.mpr h2
  omega

lemma interpAt_ge_floor {s : List ℚ} (hs : List.Sorted (fun a b => a ≤ b) s)
    (hne : s ≠ []) {a : ℚ} (ha : 0 ≤ a) (hb : a ≤ (s.length : ℚ) - 1) :
    s.getD ⌊a⌋₊ 0 ≤ interpAt s a := by
  rw [interpAt]
  have hfr : 0 ≤ a - (⌊a⌋₊ : ℚ) := sub_nonneg.mpr (Nat.floor_le ha)
  have hd : 0 ≤ s.getD ⌈a⌉₊ 0 - s.getD ⌊a⌋₊ 0 :=
    sub_nonneg.mpr (sorted_getD_mono hs (Nat.floor_le_ceil a) (ceil_lt_length hne hb))
  nlinarith [mul_nonneg hfr hd]

lemma interpAt_le_ceil {s : List ℚ} (hs : List.Sorted (fun a b => a ≤ b) s)
    (hne : s ≠ []) {a : ℚ} (_ha : 0 ≤ a) (hb : a ≤ (s.length : ℚ) - 1) :
    interpAt s a ≤ s.getD ⌈a⌉₊ 0 := by
  rw [interpAt]
  have hfr : a - (⌊a⌋₊ : ℚ) ≤ 1 := by
    have h1 := Nat.lt_floor_add_one a
    linarith
  have hd : 0 ≤ s.getD ⌈a⌉₊ 0 - s.getD ⌊a⌋₊ 0 :=
    sub_nonneg.mpr (sorted_getD_mono hs (Nat.floor_le_ceil a) (ceil_lt_length hne hb))
  nlinarith [mul_le_mul_of_nonneg_right hfr hd]

lemma interpAt_mono {s : List ℚ} (hs : List.Sorted (fun a b => a ≤ b) s) (hne : s ≠ [])
    {a b : ℚ} (ha : 0 ≤ a) (hab : a ≤ b) (hb : b ≤ (s.length : ℚ) - 1) :
    interpAt s a ≤ interpAt s b := by
  have ha2 : a ≤ (s.length : ℚ) - 1 := le_trans hab hb
  have hb0 : 0 ≤ b := le_trans ha hab
  rcases le_or_lt ⌈a⌉₊ ⌊b⌋₊ with hc | hc
  · have h1 : interpAt s a ≤ s.getD ⌈a⌉₊ 0 := interpAt_le_ceil hs hne ha ha2
    have hblt : ⌊b⌋₊ < s.length :=
      Nat.lt_of_le_of_lt (Nat.floor_le_ceil b) (ceil_lt_length hne hb)
    have h2 : s.getD ⌈a⌉₊ 0 ≤ s.getD ⌊b⌋₊ 0 := sorted_getD_mono hs hc hblt
    have h3 : s.getD ⌊b⌋₊ 0 ≤ interpAt s b := interpAt_ge_floor hs hne hb0 hb
    linarith
  · have hfab : ⌊a⌋₊ ≤ ⌊b⌋₊ := Nat.floor_mono hab
    have hca : ⌈a⌉₊ ≤ ⌊a⌋₊ + 1 := Nat.ceil_le_floor_add_one a
    have hcb : ⌈a⌉₊ ≤ ⌈b⌉₊ := Nat.ceil_mono hab
    have hcb2 : ⌈b⌉₊ ≤ ⌊b⌋₊ + 1 := Nat.ceil_le_floor_add_one b
    have hfeq : ⌊b⌋₊ = ⌊a⌋₊ := by omega
    have hcbeq : ⌈b⌉₊ = ⌈a⌉₊ := by omega
    rw [interpAt, interpAt, hfeq, hcbeq]
    have hd : 0 ≤ s.getD ⌈a⌉₊ 0 - s.getD ⌊a⌋₊ 0 :=
      sub_nonneg.mpr (sorted_getD_mono hs (Nat.floor_le_ceil a) (ceil_lt_length hne ha2))
    have h4 : (a - (⌊a⌋₊ : ℚ)) * (s.getD ⌈a⌉₊ 0 - s.getD ⌊a⌋₊ 0)
        ≤ (b - (⌊a⌋₊ : ℚ)) * (s.getD ⌈a⌉₊ 0 - s.getD ⌊a⌋₊ 0) :=
      mul_le_mul_of_nonneg_right (by linarith) hd
    linarith

end PercentileHelpers

/-- C7: on every non-empty result the summarizer succeeds and its 5th
percentile (linear interpolation between order statistics) is at most its
95th percentile. -/
theorem summarize_p5_le_p95 (xs : List ℚ) (h : xs ≠ []) :
    ∃ m p5 p95, summarize xs = some (m, p5, p95) ∧ p5 ≤ p95 := by
  have hne : xs.isEmpty = false := by simp [List.isEmpty_iff, h]
  have hn : 0 < xs.length := List.length_pos.mpr h
  have hn1 : (1 : ℚ) ≤ (xs.length : ℚ) := by exact_mod_cast hn
  have hsorted : List.Sorted (fun a b => a ≤ b)
      (List.insertionSort (fun a b => a ≤ b) xs) := List.sorted_insertionSort _ xs
  have hslen : (List.insertionSort (fun a b => a ≤ b) xs).length = xs.length :=
    List.length_insertionSort _ xs
  have hsne : List.insertionSort (fun a b => a ≤ b) xs ≠ [] := by
    intro hnil
    rw [hnil] at hslen
    exact h (List.length_eq_zero.mp hslen.symm)
  have h5a : 0 ≤ 5 / 100 * ((xs.length : ℚ) - 1) :=
    mul_nonneg (by norm_num) (by linarith)
  have h59 : 5 / 100 * ((xs.length : ℚ) - 1) ≤ 95 / 100 * ((xs.length : ℚ) - 1) :=
    mul_le_mul_of_nonneg_right (by norm_num) (by linarith)
  have h95 : 95 / 100 * ((xs.length : ℚ) - 1)
      ≤ ((List.insertionSort (fun a b => a ≤ b) xs).length : ℚ) - 1 := by
    rw [hslen]
    nlinarith
  refine ⟨np_mean xs,
    interpAt (List.insertionSort (fun a b => a ≤ b) xs) (5 / 100 * ((xs.length : ℚ) - 1)),
    interpAt (List.insertionSort (fun a b => a ≤ b) xs) (95 / 100 * ((xs.length : ℚ) - 1)),
    ?_, interpAt_mono hsorted hsne h5a h59 h95⟩
  simp [summarize, np_percentile, hne]

theorem summarize_p5_le_p95_witness :
    ([(3 : ℚ), 1, 2] ≠ []) ∧
      ∃ m p5 p95, summarize [(3 : ℚ), 1, 2] = some (m, p5, p95) ∧ p5 ≤ p95 :=
  ⟨by simp, summarize_p5_le_p95 [3, 1, 2] (by simp)⟩
